import Mathlib

/-!
Verification of the `true_color` image-enhancement pipeline
(`src/true_color/true_color.py`) against its natural-language specification.

The pipeline is a deterministic pixel-wise transform on a three-band
(red/green/blue) raster:
  1. tone curve (`_adj`, a rational highlight-compression curve) followed by
     gamma correction (`_adjGamma`), together `_sAdj`;
  2. saturation enhancement (`_satEnh`) with a global average-saturation scalar
     (`avgS` when not supplied by the caller);
  3. linear-to-sRGB encoding (`_sRGB`).
Floating-point values are modelled as real numbers; Python `**` on nonnegative
bases is modelled by `Real.rpow`.  Labeled band arrays (`xarray.DataArray`) are
modelled by `Image`: a list of band labels plus one pixel function per band.
-/

namespace TrueColor

/-! ### Module-level constants (source lines 22-29) -/

def maxR : ℝ := 3.0
def midR : ℝ := 0.13
def sat : ℝ := 1.2
def gamma : ℝ := 1.8
def gOff : ℝ := 0.01
noncomputable def gOffPow : ℝ := gOff ^ gamma
noncomputable def gOffRange : ℝ := (1 + gOff) ^ gamma - gOffPow

/-! ### Scalar stages (source lines 32-54), element-wise semantics -/

/-- Source `_adjGamma` (line 32-33): `((b + gOff) ** gamma - gOffPow) / gOffRange`. -/
noncomputable def _adjGamma (b : ℝ) : ℝ := ((b + gOff) ^ gamma - gOffPow) / gOffRange

/-- Source `_clip` (line 36-37): `s.clip(min=0, max=1)`, i.e. `min (max s 0) 1`. -/
def _clip (s : ℝ) : ℝ := min (max s 0) 1

/-- Source `_adj` (line 40-42): the rational tone curve, element-wise. -/
noncomputable def _adj (a tx ty maxC : ℝ) : ℝ :=
  let ar := _clip (a / maxC)
  ar * (ar * (tx / maxC + ty - 1) - ty) / (ar * (2 * tx / maxC - 1) - tx / maxC)

/-- Source `_sAdj` (line 49-50): tone curve with the fixed constants, then gamma. -/
noncomputable def _sAdj (a : ℝ) : ℝ := _adjGamma (_adj a midR 1 maxR)

/-- Source `_sRGB` (line 53-54): the piecewise sRGB transfer function, element-wise. -/
noncomputable def _sRGB (c : ℝ) : ℝ :=
  if c ≤ 0.0031308 then 12.92 * c else 1.055 * c ^ ((1 : ℝ) / 2.4) - 0.055

/-! ### Helper lemmas: comparing `rpow` with a rational exponent `p/q`
against a bound, by raising both sides to the `q`-th power. -/

lemma rpow_div_le_of_pow_le {x c : ℝ} {p q : ℕ} (hq : q ≠ 0) (hx : 0 ≤ x)
    (hc : 0 ≤ c) (h : x ^ p ≤ c ^ q) : x ^ ((p : ℝ) / q) ≤ c := by
  by_contra hlt
  push_neg at hlt
  have hy : 0 ≤ x ^ ((p : ℝ) / q) := Real.rpow_nonneg hx _
  have h2 : c ^ q < (x ^ ((p : ℝ) / q)) ^ q :=
    pow_lt_pow_left hlt hc hq
  have h3 : (x ^ ((p : ℝ) / q)) ^ q = x ^ p := by
    rw [← Real.rpow_natCast (x ^ ((p : ℝ) / q)) q, ← Real.rpow_mul hx]
    rw [div_mul_cancel₀]
    · rw [Real.rpow_natCast]
    · exact_mod_cast hq
  rw [h3] at h2
  linarith

lemma le_rpow_div_of_pow_le {x c : ℝ} {p q : ℕ} (hq : q ≠ 0) (hx : 0 ≤ x)
    (hc : 0 ≤ c) (h : c ^ q ≤ x ^ p) : c ≤ x ^ ((p : ℝ) / q) := by
  by_contra hlt
  push_neg at hlt
  have hy : 0 ≤ x ^ ((p : ℝ) / q) := Real.rpow_nonneg hx _
  have h2 : (x ^ ((p : ℝ) / q)) ^ q < c ^ q :=
    pow_lt_pow_left hlt hy hq
  have h3 : (x ^ ((p : ℝ) / q)) ^ q = x ^ p := by
    rw [← Real.rpow_natCast (x ^ ((p : ℝ) / q)) q, ← Real.rpow_mul hx]
    rw [div_mul_cancel₀]
    · rw [Real.rpow_natCast]
    · exact_mod_cast hq
  rw [h3] at h2
  linarith

lemma rpow_div_lt_of_pow_lt {x c : ℝ} {p q : ℕ} (hq : q ≠ 0) (hx : 0 ≤ x)
    (hc : 0 ≤ c) (h : x ^ p < c ^ q) : x ^ ((p : ℝ) / q) < c := by
  by_contra hle
  push_neg at hle
  have h2 : c ^ q ≤ (x ^ ((p : ℝ) / q)) ^ q :=
    pow_le_pow_left hc hle q
  have h3 : (x ^ ((p : ℝ) / q)) ^ q = x ^ p := by
    rw [← Real.rpow_natCast (x ^ ((p : ℝ) / q)) q, ← Real.rpow_mul hx]
    rw [div_mul_cancel₀]
    · rw [Real.rpow_natCast]
    · exact_mod_cast hq
  rw [h3] at h2
  linarith

lemma gamma_eq : gamma = (9 : ℝ) / 5 := by norm_num [gamma]

lemma srgb_exponent_eq : (1 : ℝ) / 2.4 = (5 : ℝ) / 12 := by norm_num

lemma gOffRange_pos : 0 < gOffRange := by
  have h : gOff ^ gamma < (1 + gOff) ^ gamma := by
    apply Real.rpow_lt_rpow (by norm_num [gOff]) (by norm_num [gOff])
      (by norm_num [gamma])
  simp only [gOffRange, gOffPow]
  linarith

/-! ### Labeled band arrays

An `xarray.DataArray` with a band dimension is modelled as a list of band
labels together with a list of pixel functions (one band of `n` pixels per
label, spatial dimensions flattened into `Fin n`). -/

/-- One band of `n` pixels. -/
abbrev Band (n : ℕ) := Fin n → ℝ

/-- A labeled multi-band image (the input `xarr`). -/
structure Image (n : ℕ) where
  bandLabels : List String
  data : List (Band n)

/-- Label-based lookup over parallel label/data lists (the semantics of
`xarr.sel(band=label)`: the data slice at the position of the label). -/
def selBands {n : ℕ} : List String → List (Band n) → String → Option (Band n)
  | l :: ls, d :: ds, label => if l = label then some d else selBands ls ds label
  | _, _, _ => none

/-- Selection `xarr.sel(band=label)` on an `Image`. -/
def Image.sel {n : ℕ} (img : Image n) (label : String) : Option (Band n) :=
  selBands img.bandLabels img.data label

/-- The enhanced image returned by `enhanceImage`: pixel data stacked as a
list of bands, the band labels the result was wrapped with
(`coords=xarr.coords`), and the attached `avgS` scalar coordinate. -/
structure EnhancedImage (n : ℕ) where
  bandLabels : List String
  data : List (Band n)
  avgSAttr : ℝ

/-- Label-based lookup on the result array. -/
def EnhancedImage.sel {n : ℕ} (img : EnhancedImage n) (label : String) :
    Option (Band n) :=
  selBands img.bandLabels img.data label

/-- The optional `average_saturation` argument.  The source annotates it as
`xr.DataArray | None`; a caller may still pass a plain Python float, which
behaves the same in arithmetic (broadcasting) but has no `.values`
attribute. -/
inductive SatValue where
  | dataArray (x : ℝ)
  | pyFloat (x : ℝ)

/-- The numeric value used in arithmetic, for either representation. -/
def SatValue.scalar : SatValue → ℝ
  | .dataArray x => x
  | .pyFloat x => x

/-- The `.values` attribute access on line 80: succeeds only on a
`DataArray`; a plain float has no such attribute (AttributeError). -/
def SatValue.values : SatValue → Option ℝ
  | .dataArray x => some x
  | .pyFloat _ => none

/-- Failures `enhanceImage` can raise: a missing band label during
`xarr.sel` (KeyError, the spec's MissingBandError), or the AttributeError
from `.values` on a non-DataArray `average_saturation`. -/
inductive EnhanceError where
  | missingBand
  | attributeError
deriving DecidableEq

/-! ### Array-level stages (source lines 45-58) -/

/-- Source `_satEnh` (line 45-46): stacks the three saturation-enhanced, clipped
bands in (red, green, blue) order. -/
noncomputable def _satEnh {n : ℕ} (r g b : Band n) (avgS : ℝ) : List (Band n) :=
  [fun i => _clip (avgS + r i * sat),
   fun i => _clip (avgS + g i * sat),
   fun i => _clip (avgS + b i * sat)]

/-- Source `avgS` (line 57-58): `np.mean((r + g + b) / 3.0 * (1 - sat))`, the mean
over all pixels of the element-wise expression. -/
noncomputable def avgS {n : ℕ} (r g b : Band n) : ℝ :=
  (∑ i : Fin n, (r i + g i + b i) / 3.0 * (1 - sat)) / n

/-- Source `enhanceImage` (lines 60-81).  Selects the three bands by label
(KeyError → `missingBand` when absent), tone-adjusts each with `_sAdj`,
computes `avgS` when `average_saturation` is `None`, applies `_satEnh`,
re-wraps the stack with the input's coordinates, attaches
`average_saturation.values` (AttributeError on a plain float), and finally
applies `_sRGB` to the labeled array. -/
noncomputable def enhanceImage {n : ℕ} (xarr : Image n)
    (average_saturation : Option SatValue) :
    Except EnhanceError (EnhancedImage n) :=
  match xarr.sel "red" with
  | none => .error .missingBand
  | some r0 =>
    match xarr.sel "green" with
    | none => .error .missingBand
    | some g0 =>
      match xarr.sel "blue" with
      | none => .error .missingBand
      | some b0 =>
        let r : Band n := fun i => _sAdj (r0 i)
        let g : Band n := fun i => _sAdj (g0 i)
        let b : Band n := fun i => _sAdj (b0 i)
        let sv : SatValue :=
          match average_saturation with
          | none => .dataArray (avgS r g b)
          | some v => v
        let rgbLin := _satEnh r g b sv.scalar
        match sv.values with
        | none => .error .attributeError
        | some v =>
          .ok { bandLabels := xarr.bandLabels
                data := rgbLin.map (fun band => fun i => _sRGB (band i))
                avgSAttr := v }

/-- The intermediate labeled array `rgbLin_xr` of lines 78-80: the stacked
saturation-enhanced bands wrapped with the input's coordinates and the
attached scalar, before sRGB encoding. -/
noncomputable def enhanceLinear {n : ℕ} (xarr : Image n)
    (average_saturation : Option SatValue) :
    Except EnhanceError (EnhancedImage n) :=
  match xarr.sel "red" with
  | none => .error .missingBand
  | some r0 =>
    match xarr.sel "green" with
    | none => .error .missingBand
    | some g0 =>
      match xarr.sel "blue" with
      | none => .error .missingBand
      | some b0 =>
        let r : Band n := fun i => _sAdj (r0 i)
        let g : Band n := fun i => _sAdj (g0 i)
        let b : Band n := fun i => _sAdj (b0 i)
        let sv : SatValue :=
          match average_saturation with
          | none => .dataArray (avgS r g b)
          | some v => v
        let rgbLin := _satEnh r g b sv.scalar
        match sv.values with
        | none => .error .attributeError
        | some v =>
          .ok { bandLabels := xarr.bandLabels
                data := rgbLin
                avgSAttr := v }

/-- Applying `_sRGB` to a whole labeled array (`_sRGB(rgbLin_xr)`):
element-wise on the pixel data, coordinates untouched. -/
noncomputable def EnhancedImage.mapSRGB {n : ℕ} (e : EnhancedImage n) :
    EnhancedImage n :=
  { e with data := e.data.map (fun band => fun i => _sRGB (band i)) }

/-! ### Spec-side definitions (for refinement comparisons) -/

/-- The spec's `clip(v, 0, 1)`. -/
def clip01 (v : ℝ) : ℝ := max 0 (min v 1)

/-- The spec's saturation-enhancement postcondition:
`band_out = clip(avgS + band_in * sat, 0, 1)` applied identically to the
three bands with the shared scalar. -/
noncomputable def satEnh_spec {n : ℕ} (r g b : Band n) (s : ℝ) : List (Band n) :=
  [fun i => clip01 (s + r i * sat),
   fun i => clip01 (s + g i * sat),
   fun i => clip01 (s + b i * sat)]

/-- The spec's average-saturation formula:
`avgS = mean((r + g + b)/3 * (1 - sat))` over all pixels. -/
noncomputable def avgS_spec {n : ℕ} (r g b : Band n) : ℝ :=
  (∑ i : Fin n, (r i + g i + b i) / 3 * (1 - sat)) / n

/-- The spec's sRGB transfer function (§4.3): `12.92 * c` when
`c <= 0.0031308`, else `1.055 * c**(1/2.4) - 0.055`. -/
noncomputable def sRGB_spec (c : ℝ) : ℝ :=
  if c ≤ 0.0031308 then 12.92 * c else 1.055 * c ^ ((1 : ℝ) / 2.4) - 0.055

/-! ### Basic evaluation lemmas -/

lemma clip_of_mem {s : ℝ} (h0 : 0 ≤ s) (h1 : s ≤ 1) : _clip s = s := by
  simp [_clip, max_eq_left h0, min_eq_left h1]

lemma clip_nonneg (s : ℝ) : 0 ≤ _clip s := le_min (le_max_right s 0) zero_le_one

lemma clip_le_one (s : ℝ) : _clip s ≤ 1 := min_le_right _ _

lemma clip_of_one_le {s : ℝ} (h : 1 ≤ s) : _clip s = 1 := by
  simp [_clip, max_eq_left (zero_le_one.trans h), min_eq_right h]

lemma clip_eq_clip01 (v : ℝ) : _clip v = clip01 v := by
  unfold _clip clip01
  rcases le_total v 0 with h | h
  · rw [max_eq_right h, min_eq_left (h.trans zero_le_one), max_eq_left h]
    exact min_eq_left zero_le_one
  · rcases le_total v 1 with h1 | h1
    · rw [max_eq_left h, min_eq_left h1, max_eq_right h]
    · rw [max_eq_left h, min_eq_right h1, max_eq_right zero_le_one]

lemma adjGamma_zero : _adjGamma 0 = 0 := by
  simp [_adjGamma, gOffPow]

lemma adj_zero : _adj 0 midR 1 maxR = 0 := by
  simp [_adj, _clip]

lemma sAdj_zero : _sAdj 0 = 0 := by
  unfold _sAdj
  rw [adj_zero, adjGamma_zero]

/-! ### Bounds on the sRGB encoder -/

lemma le_rpow_512 {x c : ℝ} (hx : 0 ≤ x) (hc : 0 ≤ c) (h : c ^ 12 ≤ x ^ 5) :
    c ≤ x ^ ((1 : ℝ) / 2.4) := by
  rw [srgb_exponent_eq,
    show (5 : ℝ) / 12 = ((5 : ℕ) : ℝ) / ((12 : ℕ) : ℝ) by norm_num]
  exact le_rpow_div_of_pow_le (by norm_num) hx hc h

lemma rpow_512_le {x c : ℝ} (hx : 0 ≤ x) (hc : 0 ≤ c) (h : x ^ 5 ≤ c ^ 12) :
    x ^ ((1 : ℝ) / 2.4) ≤ c := by
  rw [srgb_exponent_eq,
    show (5 : ℝ) / 12 = ((5 : ℕ) : ℝ) / ((12 : ℕ) : ℝ) by norm_num]
  exact rpow_div_le_of_pow_le (by norm_num) hx hc h

lemma rpow_512_lt {x c : ℝ} (hx : 0 ≤ x) (hc : 0 ≤ c) (h : x ^ 5 < c ^ 12) :
    x ^ ((1 : ℝ) / 2.4) < c := by
  rw [srgb_exponent_eq,
    show (5 : ℝ) / 12 = ((5 : ℕ) : ℝ) / ((12 : ℕ) : ℝ) by norm_num]
  exact rpow_div_lt_of_pow_lt (by norm_num) hx hc h

lemma sRGB_nonneg {c : ℝ} (h0 : 0 ≤ c) : 0 ≤ _sRGB c := by
  unfold _sRGB
  split
  · nlinarith
  · rename_i h
    push_neg at h
    have hk : (11 / 211 : ℝ) ≤ c ^ ((1 : ℝ) / 2.4) := by
      apply le_rpow_512 h0 (by norm_num)
      calc ((11 : ℝ) / 211) ^ 12 ≤ (0.0031308 : ℝ) ^ 5 := by norm_num
        _ ≤ c ^ 5 := pow_le_pow_left₀ (by norm_num) h.le 5
    nlinarith

lemma sRGB_le_one {c : ℝ} (h0 : 0 ≤ c) (h1 : c ≤ 1) : _sRGB c ≤ 1 := by
  unfold _sRGB
  split
  · rename_i h; nlinarith
  · have hle : c ^ ((1 : ℝ) / 2.4) ≤ 1 := Real.rpow_le_one h0 h1 (by norm_num)
    nlinarith

lemma sRGB_clip_mem (x : ℝ) : 0 ≤ _sRGB (_clip x) ∧ _sRGB (_clip x) ≤ 1 :=
  ⟨sRGB_nonneg (clip_nonneg x), sRGB_le_one (clip_nonneg x) (clip_le_one x)⟩

lemma satEnh_sRGB_mem {n : ℕ} (r g b : Band n) (s : ℝ) :
    ∀ band ∈ (_satEnh r g b s).map (fun band => fun i => _sRGB (band i)),
      ∀ i, 0 ≤ band i ∧ band i ≤ 1 := by
  intro band hband i
  simp only [_satEnh, List.map_cons, List.map_nil, List.mem_cons,
    List.not_mem_nil, or_false] at hband
  rcases hband with rfl | rfl | rfl <;> exact sRGB_clip_mem _

/-! ### C1 — the black-floor constant of the tone-curve stage -/

/-- C1 (counterexample): the tone-curve stage does send an all-zero input to
the constant `(gOff**gamma - gOffPow)/gOffRange`, but that constant is NOT
strictly positive: since `gOffPow = gOff**gamma`, it is exactly `0`, so
black maps to pure 0 after the gamma lift. -/
theorem toneCurve_black_floor_not_pos :
    _sAdj 0 = (gOff ^ gamma - gOffPow) / gOffRange ∧
    ¬ (0 < (gOff ^ gamma - gOffPow) / gOffRange) := by
  have hz : (gOff ^ gamma - gOffPow) / gOffRange = 0 := by
    simp [gOffPow]
  refine ⟨?_, by rw [hz]; exact lt_irrefl 0⟩
  rw [sAdj_zero, hz]

/-- C1 (amended): for an input band whose elements are all 0, the tone-curve
stage outputs the constant `(gOff**gamma - gOffPow)/gOffRange` at every
element, and this constant equals 0: the gamma lift is normalized so the
floor offset cancels, and black maps to exactly 0. -/
theorem toneCurve_black_floor {n : ℕ} (band : Band n) (h : ∀ i, band i = 0) :
    (∀ i, _sAdj (band i) = (gOff ^ gamma - gOffPow) / gOffRange) ∧
    (gOff ^ gamma - gOffPow) / gOffRange = 0 := by
  have hz : (gOff ^ gamma - gOffPow) / gOffRange = 0 := by
    simp [gOffPow]
  exact ⟨fun i => by rw [h i, sAdj_zero, hz], hz⟩

/-- Witness for the amended C1 at a concrete all-zero one-pixel band. -/
theorem toneCurve_black_floor_witness :
    (∀ i : Fin 1, _sAdj ((fun _ : Fin 1 => (0 : ℝ)) i) =
      (gOff ^ gamma - gOffPow) / gOffRange) ∧
    (gOff ^ gamma - gOffPow) / gOffRange = 0 :=
  toneCurve_black_floor (fun _ : Fin 1 => (0 : ℝ)) (fun _ => rfl)

/-! ### C4 — the tone-curve denominator never vanishes -/

/-- C4: with the fixed constants `tx = midR = 0.13`, `maxC = maxR = 3.0`,
the denominator `ar * (2*tx/maxC - 1) - tx/maxC` of the rational tone curve
is nonzero for every `ar` in `[0, 1]` (it is in fact strictly negative). -/
theorem adj_denominator_ne_zero (ar : ℝ) (h0 : 0 ≤ ar) (h1 : ar ≤ 1) :
    ar * (2 * midR / maxR - 1) - midR / maxR ≠ 0 := by
  have : ar * (2 * midR / maxR - 1) - midR / maxR < 0 := by
    rw [midR, maxR]
    nlinarith
  linarith

/-- Witness for C4 at `ar = 1/2`. -/
theorem adj_denominator_ne_zero_witness :
    (1 / 2 : ℝ) * (2 * midR / maxR - 1) - midR / maxR ≠ 0 :=
  adj_denominator_ne_zero (1 / 2) (by norm_num) (by norm_num)

/-! ### C5 — the saturation-enhancement postcondition -/

/-- C5: `_satEnh` produces exactly `clip(avgS + band_in * sat, 0, 1)` for
each band with the same shared scalar, and the standalone `avgS` function
computes exactly `mean((r + g + b)/3 * (1 - sat))` over all pixels. -/
theorem satEnh_postcondition {n : ℕ} (r g b : Band n) (s : ℝ) :
    _satEnh r g b s = satEnh_spec r g b s ∧ avgS r g b = avgS_spec r g b := by
  constructor
  · unfold _satEnh satEnh_spec
    simp only [clip_eq_clip01]
  · unfold avgS avgS_spec
    norm_num

/-! ### C9 — missing band labels fail fast -/

/-- C9: `enhanceImage` raises the missing-band error exactly when one of the
labels red/green/blue is absent from the input; when all three are present
the band-selection step succeeds (no missing-band failure is possible). -/
theorem enhanceImage_missingBand_iff {n : ℕ} (xarr : Image n)
    (a : Option SatValue) :
    enhanceImage xarr a = .error .missingBand ↔
      (xarr.sel "red" = none ∨ xarr.sel "green" = none ∨
        xarr.sel "blue" = none) := by
  unfold enhanceImage
  cases hr : xarr.sel "red" with
  | none => simp [hr]
  | some r0 =>
    cases hg : xarr.sel "green" with
    | none => simp [hg]
    | some g0 =>
      cases hb : xarr.sel "blue" with
      | none => simp [hb]
      | some b0 =>
        simp only [hr, hg, hb]
        constructor
        · intro h
          exfalso
          rcases hv : (match a with
              | none => SatValue.dataArray (avgS (fun i => _sAdj (r0 i))
                  (fun i => _sAdj (g0 i)) (fun i => _sAdj (b0 i)))
              | some v => v).values with _ | v <;> simp [hv] at h
        · intro h
          simp at h

/-- A one-pixel image missing the blue band label. -/
def wimgNoBlue : Image 1 :=
  { bandLabels := ["red", "green"]
    data := [fun _ => 0, fun _ => 0] }

/-- Witness for C9: on a concrete image lacking the blue band,
`enhanceImage` returns the missing-band error. -/
theorem enhanceImage_missingBand_iff_witness :
    enhanceImage wimgNoBlue none = .error .missingBand :=
  (enhanceImage_missingBand_iff wimgNoBlue none).2 (Or.inr (Or.inr rfl))

/-! ### C10 — supplying the scalar as a plain float -/

/-- A concrete valid one-pixel all-zero image with bands in (red, green,
blue) order. -/
def wimg1 : Image 1 :=
  { bandLabels := ["red", "green", "blue"]
    data := [fun _ => 0, fun _ => 0, fun _ => 0] }

/-- C10 (counterexample): on a valid three-band image, supplying
`average_saturation` as a plain scalar float makes `enhanceImage` fail:
line 80 accesses `average_saturation.values`, which a plain float does not
have, so an AttributeError is raised instead of completing. -/
theorem plain_float_satArg_raises :
    enhanceImage wimg1 (some (SatValue.pyFloat 0)) =
      .error .attributeError := rfl

/-- C10 (amended): when `average_saturation` is supplied as a (0-d)
DataArray holding `x`, `enhanceImage` completes without error, never calls
the `avgS` formula, uses `x` for the saturation enhancement of all three
bands, and attaches `x` as the result's `avgS` field. -/
theorem dataArray_satArg_used {n : ℕ} (xarr : Image n) (x : ℝ)
    (r0 g0 b0 : Band n)
    (hr : xarr.sel "red" = some r0) (hg : xarr.sel "green" = some g0)
    (hb : xarr.sel "blue" = some b0) :
    enhanceImage xarr (some (SatValue.dataArray x)) =
      .ok { bandLabels := xarr.bandLabels
            data := (_satEnh (fun i => _sAdj (r0 i)) (fun i => _sAdj (g0 i))
                      (fun i => _sAdj (b0 i)) x).map
                    (fun band => fun i => _sRGB (band i))
            avgSAttr := x } := by
  unfold enhanceImage
  simp only [hr, hg, hb]
  rfl

/-- Witness for the amended C10 at a concrete image and scalar. -/
theorem dataArray_satArg_used_witness :
    enhanceImage wimg1 (some (SatValue.dataArray 0)) =
      .ok { bandLabels := wimg1.bandLabels
            data := (_satEnh (fun i => _sAdj ((0 : ℝ))) (fun i => _sAdj ((0 : ℝ)))
                      (fun i => _sAdj ((0 : ℝ))) 0).map
                    (fun band => fun i => _sRGB (band i))
            avgSAttr := 0 } :=
  dataArray_satArg_used wimg1 0 (fun _ => 0) (fun _ => 0) (fun _ => 0)
    rfl rfl rfl

/-! ### C8 — internal vs. externally supplied average saturation -/

/-- C8: on any valid image, calling `enhanceImage` with no
`average_saturation` yields exactly the output of calling it with the
standalone `avgS` formula's value over the same tone-curve-adjusted bands
supplied externally. -/
theorem avgS_internal_eq_supplied {n : ℕ} (xarr : Image n)
    (r0 g0 b0 : Band n)
    (hr : xarr.sel "red" = some r0) (hg : xarr.sel "green" = some g0)
    (hb : xarr.sel "blue" = some b0) :
    enhanceImage xarr none =
      enhanceImage xarr (some (SatValue.dataArray
        (avgS (fun i => _sAdj (r0 i)) (fun i => _sAdj (g0 i))
          (fun i => _sAdj (b0 i))))) := by
  unfold enhanceImage
  simp only [hr, hg, hb]

/-- Witness for C8 at a concrete one-pixel image. -/
theorem avgS_internal_eq_supplied_witness :
    enhanceImage wimg1 none =
      enhanceImage wimg1 (some (SatValue.dataArray
        (avgS (fun _ : Fin 1 => _sAdj ((0 : ℝ))) (fun _ => _sAdj ((0 : ℝ)))
          (fun _ => _sAdj ((0 : ℝ)))))) :=
  avgS_internal_eq_supplied wimg1 (fun _ => 0) (fun _ => 0) (fun _ => 0)
    rfl rfl rfl

/-! ### Monotonicity of the tone curve -/

/-- On inputs in `[0, 1]` the inner clip of `_adj` is the identity and the
curve evaluates to an explicit rational expression in `a / 3`. -/
lemma adj_eval {a : ℝ} (h0 : 0 ≤ a) (h1 : a ≤ 1) :
    _adj a midR 1 maxR =
      (a / 3) * ((a / 3) * (13 / 300) - 1) /
        ((a / 3) * (-(137 / 150)) - 13 / 300) := by
  have hm : maxR = 3 := by norm_num [maxR]
  have hmi : midR = 13 / 100 := by norm_num [midR]
  simp only [_adj, hm, hmi]
  rw [clip_of_mem (by positivity) (by linarith)]
  norm_num

/-- Monotonicity of the rational curve `t (t·13/300 − 1) / (−t·137/150 −
13/300)` on `[0, 1/3]`. -/
lemma ratcurve_mono {t1 t2 : ℝ} (h0 : 0 ≤ t1) (h12 : t1 ≤ t2)
    (h2 : t2 ≤ 1 / 3) :
    t1 * (t1 * (13 / 300) - 1) / (t1 * (-(137 / 150)) - 13 / 300) ≤
      t2 * (t2 * (13 / 300) - 1) / (t2 * (-(137 / 150)) - 13 / 300) := by
  have ht1 : t1 ≤ 1 / 3 := h12.trans h2
  have ht2 : 0 ≤ t2 := h0.trans h12
  have hd1 : (0 : ℝ) < 13 / 300 + t1 * (137 / 150) := by nlinarith
  have hd2 : (0 : ℝ) < 13 / 300 + t2 * (137 / 150) := by nlinarith
  have e1 : t1 * (t1 * (13 / 300) - 1) / (t1 * (-(137 / 150)) - 13 / 300)
      = t1 * (1 - t1 * (13 / 300)) / (13 / 300 + t1 * (137 / 150)) := by
    rw [show t1 * (t1 * (13 / 300) - 1) = -(t1 * (1 - t1 * (13 / 300))) by ring,
      show t1 * (-(137 / 150)) - 13 / 300 = -(13 / 300 + t1 * (137 / 150)) by ring,
      neg_div_neg_eq]
  have e2 : t2 * (t2 * (13 / 300) - 1) / (t2 * (-(137 / 150)) - 13 / 300)
      = t2 * (1 - t2 * (13 / 300)) / (13 / 300 + t2 * (137 / 150)) := by
    rw [show t2 * (t2 * (13 / 300) - 1) = -(t2 * (1 - t2 * (13 / 300))) by ring,
      show t2 * (-(137 / 150)) - 13 / 300 = -(13 / 300 + t2 * (137 / 150)) by ring,
      neg_div_neg_eq]
  rw [e1, e2, div_le_div_iff hd1 hd2]
  have hprod : t1 * t2 ≤ 1 / 3 * (1 / 3) :=
    mul_le_mul ht1 h2 ht2 (by norm_num)
  have hfac : (0 : ℝ) ≤ 13 / 300 - (13 / 300) * (13 / 300) * (t1 + t2)
      - (13 / 300) * (137 / 150) * (t1 * t2) := by nlinarith
  have key : t2 * (1 - t2 * (13 / 300)) * (13 / 300 + t1 * (137 / 150))
      - t1 * (1 - t1 * (13 / 300)) * (13 / 300 + t2 * (137 / 150))
      = (t2 - t1) * (13 / 300 - (13 / 300) * (13 / 300) * (t1 + t2)
          - (13 / 300) * (137 / 150) * (t1 * t2)) := by ring
  nlinarith [mul_nonneg (sub_nonneg.2 h12) hfac]

lemma adj_mono {a b : ℝ} (h0 : 0 ≤ a) (hab : a ≤ b) (hb1 : b ≤ 1) :
    _adj a midR 1 maxR ≤ _adj b midR 1 maxR := by
  rw [adj_eval h0 (hab.trans hb1), adj_eval (h0.trans hab) hb1]
  exact ratcurve_mono (by positivity) (by linarith) (by linarith)

lemma adj_nonneg {a : ℝ} (h0 : 0 ≤ a) (h1 : a ≤ 1) :
    0 ≤ _adj a midR 1 maxR := by
  rw [adj_eval h0 h1]
  rw [show (a / 3) * ((a / 3) * (13 / 300) - 1)
        = -((a / 3) * (1 - (a / 3) * (13 / 300))) by ring,
    show (a / 3) * (-(137 / 150)) - 13 / 300
        = -(13 / 300 + (a / 3) * (137 / 150)) by ring,
    neg_div_neg_eq]
  apply div_nonneg
  · nlinarith
  · nlinarith

lemma adjGamma_mono {x y : ℝ} (hx : 0 ≤ x) (hxy : x ≤ y) :
    _adjGamma x ≤ _adjGamma y := by
  unfold _adjGamma
  have hg : (0 : ℝ) < gOff := by norm_num [gOff]
  have ha : (0 : ℝ) ≤ x + gOff := by linarith
  have hb : x + gOff ≤ y + gOff := by linarith
  have h := Real.rpow_le_rpow ha hb (by norm_num [gamma] : (0 : ℝ) ≤ gamma)
  exact (div_le_div_right gOffRange_pos).2 (by linarith)

/-- The tone-curve stage `_sAdj` is monotone on `[0, 1]`. -/
lemma sAdj_mono {x y : ℝ} (hx : 0 ≤ x) (hxy : x ≤ y) (hy : y ≤ 1) :
    _sAdj x ≤ _sAdj y := by
  unfold _sAdj
  exact adjGamma_mono (adj_nonneg hx (hxy.trans hy)) (adj_mono hx hxy hy)

/-! ### Monotonicity of the sRGB encoder (piecewise; it fails globally) -/

lemma sRGB_mono_low {x y : ℝ} (hxy : x ≤ y) (hy : y ≤ 0.0031308) :
    _sRGB x ≤ _sRGB y := by
  unfold _sRGB
  rw [if_pos (hxy.trans hy), if_pos hy]
  linarith

lemma sRGB_mono_high {x y : ℝ} (hx : 0.0031308 < x) (hxy : x ≤ y) :
    _sRGB x ≤ _sRGB y := by
  unfold _sRGB
  rw [if_neg (not_le.2 hx), if_neg (not_le.2 (hx.trans_le hxy))]
  have hx0 : (0 : ℝ) ≤ x := le_of_lt ((by norm_num : (0 : ℝ) < 0.0031308).trans hx)
  have h := Real.rpow_le_rpow hx0 hxy (by norm_num : (0 : ℝ) ≤ 1 / 2.4)
  linarith

/-- Near-monotonicity of `_sRGB` across the branch switch: the rounded
constant `0.0031308` sits slightly above the exact crossover of the two
formulas, so the encoder can decrease, but by less than `1e-7`. -/
lemma sRGB_near_mono {x y : ℝ} (hx : 0 ≤ x) (hxy : x ≤ y) (hy : y ≤ 1) :
    _sRGB x ≤ _sRGB y + 0.0000001 := by
  rcases le_or_lt y 0.0031308 with h | h
  · have := sRGB_mono_low hxy h
    linarith
  · rcases le_or_lt x 0.0031308 with h1 | h1
    · have e1 : _sRGB x = 12.92 * x := by unfold _sRGB; rw [if_pos h1]
      have e2 : _sRGB y = 1.055 * y ^ ((1 : ℝ) / 2.4) - 0.055 := by
        unfold _sRGB; rw [if_neg (not_le.2 h)]
      have hbp : (23862459 / 263750000 : ℝ) ≤ (0.0031308 : ℝ) ^ ((1 : ℝ) / 2.4) :=
        le_rpow_512 (by norm_num) (by norm_num) (by norm_num)
      have hmono : (0.0031308 : ℝ) ^ ((1 : ℝ) / 2.4) ≤ y ^ ((1 : ℝ) / 2.4) :=
        Real.rpow_le_rpow (by norm_num) h.le (by norm_num)
      rw [e1, e2]
      nlinarith
    · have := sRGB_mono_high h1 hxy
      linarith

/-! ### C7 — monotonicity of the two stages -/

/-- C7 (counterexample): the sRGB encoder is NOT monotonically
non-decreasing on `[0, 1]`: just past the breakpoint the power branch is
strictly below the linear branch's value at the breakpoint, so
`_sRGB 0.003130801 < _sRGB 0.0031308` although `0.0031308 < 0.003130801`
and both lie in `[0, 1]`. -/
theorem sRGB_decreases_past_breakpoint :
    (0 : ℝ) ≤ 0.0031308 ∧ (0.0031308 : ℝ) < 0.003130801 ∧
    (0.003130801 : ℝ) ≤ 1 ∧ _sRGB 0.003130801 < _sRGB 0.0031308 := by
  refine ⟨by norm_num, by norm_num, by norm_num, ?_⟩
  have e1 : _sRGB 0.0031308 = 12.92 * 0.0031308 := by
    unfold _sRGB; rw [if_pos le_rfl]
  have e2 : _sRGB 0.003130801
      = 1.055 * (0.003130801 : ℝ) ^ ((1 : ℝ) / 2.4) - 0.055 := by
    unfold _sRGB; rw [if_neg (by norm_num)]
  have h : (0.003130801 : ℝ) ^ ((1 : ℝ) / 2.4) < 5965621 / 65937500 :=
    rpow_512_lt (by norm_num) (by norm_num) (by norm_num)
  rw [e1, e2]
  nlinarith

/-- C7 (amended): the tone-curve stage `_sAdj` is monotonically
non-decreasing on `[0, 1]`; the sRGB encoder is monotonically
non-decreasing on each branch of its domain (`[0, 0.0031308]` and
`(0.0031308, 1]`), and globally it is monotone only up to an additive
error below `1e-7` caused by the rounded breakpoint constant. -/
theorem toneCurve_mono_sRGB_piecewise :
    (∀ x1 x2 : ℝ, 0 ≤ x1 → x1 < x2 → x2 ≤ 1 → _sAdj x1 ≤ _sAdj x2) ∧
    (∀ x1 x2 : ℝ, 0 ≤ x1 → x1 < x2 → x2 ≤ 0.0031308 → _sRGB x1 ≤ _sRGB x2) ∧
    (∀ x1 x2 : ℝ, 0.0031308 < x1 → x1 < x2 → x2 ≤ 1 → _sRGB x1 ≤ _sRGB x2) ∧
    (∀ x1 x2 : ℝ, 0 ≤ x1 → x1 < x2 → x2 ≤ 1 →
      _sRGB x1 ≤ _sRGB x2 + 0.0000001) :=
  ⟨fun _ _ h0 h12 h2 => sAdj_mono h0 h12.le h2,
   fun _ _ _ h12 h2 => sRGB_mono_low h12.le h2,
   fun _ _ h0 h12 _ => sRGB_mono_high h0 h12.le,
   fun _ _ h0 h12 h2 => sRGB_near_mono h0 h12.le h2⟩

/-- Witness for the amended C7 at concrete points. -/
theorem toneCurve_mono_sRGB_piecewise_witness :
    _sAdj 0 ≤ _sAdj 1 ∧ _sRGB 0 ≤ _sRGB 0.001 ∧ _sRGB 0.5 ≤ _sRGB 1 ∧
    _sRGB 0.25 ≤ _sRGB 0.75 + 0.0000001 :=
  ⟨toneCurve_mono_sRGB_piecewise.1 0 1 (by norm_num) (by norm_num) (by norm_num),
   toneCurve_mono_sRGB_piecewise.2.1 0 0.001 (by norm_num) (by norm_num)
     (by norm_num),
   toneCurve_mono_sRGB_piecewise.2.2.1 0.5 1 (by norm_num) (by norm_num)
     (by norm_num),
   toneCurve_mono_sRGB_piecewise.2.2.2 0.25 0.75 (by norm_num) (by norm_num)
     (by norm_num)⟩

/-! ### C2 — the range invariant -/

/-- C2: when the input bands all lie in `[0, 1]`, every pixel value of the
array `enhanceImage` returns lies in `[0, 1]` (the `_satEnh` clip bounds the
linear values to `[0, 1]` and the sRGB formula maps `[0, 1]` into
`[0, 1]`). -/
theorem enhanceImage_range_invariant {n : ℕ} (xarr : Image n)
    (a : Option SatValue) (out : EnhancedImage n)
    (hin : ∀ band ∈ xarr.data, ∀ i, 0 ≤ band i ∧ band i ≤ 1)
    (hok : enhanceImage xarr a = .ok out) :
    ∀ band ∈ out.data, ∀ i, 0 ≤ band i ∧ band i ≤ 1 := by
  unfold enhanceImage at hok
  cases hr : xarr.sel "red" with
  | none => rw [hr] at hok; simp at hok
  | some r0 =>
    rw [hr] at hok
    cases hg : xarr.sel "green" with
    | none => rw [hg] at hok; simp at hok
    | some g0 =>
      rw [hg] at hok
      cases hb : xarr.sel "blue" with
      | none => rw [hb] at hok; simp at hok
      | some b0 =>
        rw [hb] at hok
        cases a with
        | none =>
          simp only [SatValue.values, SatValue.scalar, Except.ok.injEq] at hok
          subst hok
          exact satEnh_sRGB_mem _ _ _ _
        | some v =>
          cases v with
          | dataArray x =>
            simp only [SatValue.values, SatValue.scalar, Except.ok.injEq] at hok
            subst hok
            exact satEnh_sRGB_mem _ _ _ _
          | pyFloat x => simp [SatValue.values] at hok

/-- Concrete output of `enhanceImage` on `wimg1` with a supplied scalar 0,
used as a range-invariant witness. -/
noncomputable def wout1 : EnhancedImage 1 :=
  { bandLabels := ["red", "green", "blue"]
    data := [fun _ => _sRGB (_clip (0 + _sAdj 0 * sat)),
             fun _ => _sRGB (_clip (0 + _sAdj 0 * sat)),
             fun _ => _sRGB (_clip (0 + _sAdj 0 * sat))]
    avgSAttr := 0 }

/-- Witness for C2 at a concrete image, output band and pixel. -/
theorem enhanceImage_range_invariant_witness :
    0 ≤ _sRGB (_clip (0 + _sAdj 0 * sat)) ∧
    _sRGB (_clip (0 + _sAdj 0 * sat)) ≤ 1 :=
  enhanceImage_range_invariant wimg1 (some (SatValue.dataArray 0)) wout1
    (by
      intro band hband i
      simp only [wimg1, List.mem_cons, List.not_mem_nil, or_false] at hband
      rcases hband with rfl | rfl | rfl <;> norm_num)
    rfl
    (fun _ => _sRGB (_clip (0 + _sAdj 0 * sat)))
    (List.mem_cons_self _ _)
    0

/-! ### C6 — the sRGB encoder formula and its place in the pipeline -/

/-- C6: the sRGB encoder computes element-wise exactly `12.92 * c` for
`c <= 0.0031308` and `1.055 * c**(1/2.4) - 0.055` otherwise, and
`enhanceImage` is the sRGB encoding of the stacked, labeled linear array
(`rgbLin_xr`) — sRGB is the last stage before the return. -/
theorem sRGB_formula_and_last_stage :
    (∀ c : ℝ, _sRGB c = sRGB_spec c) ∧
    (∀ (n : ℕ) (xarr : Image n) (a : Option SatValue),
      enhanceImage xarr a = (enhanceLinear xarr a).map EnhancedImage.mapSRGB) := by
  refine ⟨fun c => rfl, fun n xarr a => ?_⟩
  unfold enhanceImage enhanceLinear
  cases hr : xarr.sel "red" with
  | none => rfl
  | some r0 =>
    cases hg : xarr.sel "green" with
    | none => rfl
    | some g0 =>
      cases hb : xarr.sel "blue" with
      | none => rfl
      | some b0 =>
        cases a with
        | none => rfl
        | some v =>
          cases v with
          | dataArray x => rfl
          | pyFloat x => rfl

/-! ### Evaluation facts used by the band-labeling analysis -/

lemma le_rpow_gamma {x c : ℝ} (hx : 0 ≤ x) (hc : 0 ≤ c) (h : c ^ 5 ≤ x ^ 9) :
    c ≤ x ^ gamma := by
  rw [gamma_eq, show (9 : ℝ) / 5 = ((9 : ℕ) : ℝ) / ((5 : ℕ) : ℝ) by norm_num]
  exact le_rpow_div_of_pow_le (by norm_num) hx hc h

lemma rpow_gamma_le {x c : ℝ} (hx : 0 ≤ x) (hc : 0 ≤ c) (h : x ^ 9 ≤ c ^ 5) :
    x ^ gamma ≤ c := by
  rw [gamma_eq, show (9 : ℝ) / 5 = ((9 : ℕ) : ℝ) / ((5 : ℕ) : ℝ) by norm_num]
  exact rpow_div_le_of_pow_le (by norm_num) hx hc h

lemma gOffPow_nonneg : 0 ≤ gOffPow :=
  Real.rpow_nonneg (by norm_num [gOff]) _

lemma gOffPow_le : gOffPow ≤ 0.01 := by
  unfold gOffPow
  exact rpow_gamma_le (by norm_num [gOff]) (by norm_num) (by norm_num [gOff])

lemma gOffRange_le : gOffRange ≤ 1.02 := by
  unfold gOffRange
  have h1 : (1 + gOff) ^ gamma ≤ 1.02 :=
    rpow_gamma_le (by norm_num [gOff]) (by norm_num) (by norm_num [gOff])
  have h2 := gOffPow_nonneg
  linarith

lemma adj_one : _adj 1 midR 1 maxR = 887 / 939 := by
  rw [adj_eval zero_le_one le_rfl]
  norm_num

/-- The tone-curve stage maps full-scale input 1 to at least `5/6`, so
after the `sat = 1.2` gain the saturation clip saturates at 1. -/
lemma sAdj_one_ge : (5 : ℝ) / 6 ≤ _sAdj 1 := by
  unfold _sAdj
  rw [adj_one]
  unfold _adjGamma
  rw [show (887 / 939 : ℝ) + gOff = 89639 / 93900 by norm_num [gOff]]
  have hlow : (0.919 : ℝ) ≤ (89639 / 93900 : ℝ) ^ gamma :=
    le_rpow_gamma (by norm_num) (by norm_num) (by norm_num)
  have h1 := gOffPow_le
  have h2 := gOffRange_le
  have h3 := gOffRange_pos
  rw [le_div_iff₀ h3]
  nlinarith

lemma clip_zero : _clip 0 = 0 := by norm_num [_clip]

lemma sRGB_zero : _sRGB 0 = 0 := by
  unfold _sRGB
  rw [if_pos (by norm_num)]
  ring

lemma sRGB_one : _sRGB 1 = 1 := by
  unfold _sRGB
  rw [if_neg (by norm_num), Real.one_rpow]
  norm_num

/-! ### C3 — band selection by label vs. output labeling -/

/-- A one-pixel image whose band dimension is ordered (blue, green, red):
blue = green = 0, red = 1. -/
def wimg3 : Image 1 :=
  { bandLabels := ["blue", "green", "red"]
    data := [fun _ => 0, fun _ => 0, fun _ => 1] }

/-- The output `enhanceImage` actually produces on `wimg3` with a supplied
scalar 0: data stacked in (red, green, blue) order but wrapped with the
input's (blue, green, red) labels. -/
noncomputable def wout3 : EnhancedImage 1 :=
  { bandLabels := ["blue", "green", "red"]
    data := [fun _ => _sRGB (_clip (0 + _sAdj 1 * sat)),
             fun _ => _sRGB (_clip (0 + _sAdj 0 * sat)),
             fun _ => _sRGB (_clip (0 + _sAdj 0 * sat))]
    avgSAttr := 0 }

/-- C3 (counterexample): `enhanceImage` does select input bands by label,
but it re-wraps the (red, green, blue)-stacked result with the input's
original coordinates.  On `wimg3` (band order blue, green, red) the output
slice labeled "red" is the processed BLUE band (value 0), not the processed
red band (value 1): the output labels misidentify the data. -/
theorem output_mislabeled_on_permuted_bands :
    enhanceImage wimg3 (some (SatValue.dataArray 0)) = .ok wout3 ∧
    wimg3.sel "red" = some (fun _ => 1) ∧
    wout3.sel "red" = some (fun _ => _sRGB (_clip (0 + _sAdj 0 * sat))) ∧
    _sRGB (_clip (0 + _sAdj 0 * sat)) ≠ _sRGB (_clip (0 + _sAdj 1 * sat)) := by
  refine ⟨rfl, rfl, rfl, ?_⟩
  have h0 : _sRGB (_clip (0 + _sAdj 0 * sat)) = 0 := by
    rw [sAdj_zero, show (0 : ℝ) + 0 * sat = 0 by ring, clip_zero, sRGB_zero]
  have h1 : _sRGB (_clip (0 + _sAdj 1 * sat)) = 1 := by
    have hs : sat = 6 / 5 := by norm_num [sat]
    have hge : (1 : ℝ) ≤ 0 + _sAdj 1 * sat := by
      have := sAdj_one_ge
      rw [hs]
      nlinarith
    rw [clip_of_one_le hge, sRGB_one]
  rw [h0, h1]
  norm_num

/-- C3 (amended): `enhanceImage` selects its bands by label (never by
position), stacks the processed bands in (red, green, blue) order, and
re-wraps them with the input's original band labels; consequently the
output labels correctly identify the data exactly when the input band
order is (red, green, blue), in which case the output slice labeled red is
the processed red band, and likewise for green and blue. -/
theorem enhanceImage_label_selection {n : ℕ} (xarr : Image n)
    (a : Option SatValue) (out : EnhancedImage n) (r0 g0 b0 : Band n)
    (hr : xarr.sel "red" = some r0) (hg : xarr.sel "green" = some g0)
    (hb : xarr.sel "blue" = some b0)
    (hok : enhanceImage xarr a = .ok out) :
    out.bandLabels = xarr.bandLabels ∧
    ∃ s : ℝ,
      out.data = [fun i => _sRGB (_clip (s + _sAdj (r0 i) * sat)),
                  fun i => _sRGB (_clip (s + _sAdj (g0 i) * sat)),
                  fun i => _sRGB (_clip (s + _sAdj (b0 i) * sat))] ∧
      (xarr.bandLabels = ["red", "green", "blue"] →
        out.sel "red" = some (fun i => _sRGB (_clip (s + _sAdj (r0 i) * sat))) ∧
        out.sel "green" = some (fun i => _sRGB (_clip (s + _sAdj (g0 i) * sat))) ∧
        out.sel "blue" = some (fun i => _sRGB (_clip (s + _sAdj (b0 i) * sat)))) := by
  unfold enhanceImage at hok
  rw [hr, hg, hb] at hok
  have main : ∀ s : ℝ, out = EnhancedImage.mk xarr.bandLabels
      [fun i => _sRGB (_clip (s + _sAdj (r0 i) * sat)),
       fun i => _sRGB (_clip (s + _sAdj (g0 i) * sat)),
       fun i => _sRGB (_clip (s + _sAdj (b0 i) * sat))]
      s → out.bandLabels = xarr.bandLabels ∧
      ∃ s : ℝ,
        out.data = [fun i => _sRGB (_clip (s + _sAdj (r0 i) * sat)),
                    fun i => _sRGB (_clip (s + _sAdj (g0 i) * sat)),
                    fun i => _sRGB (_clip (s + _sAdj (b0 i) * sat))] ∧
        (xarr.bandLabels = ["red", "green", "blue"] →
          out.sel "red" = some (fun i => _sRGB (_clip (s + _sAdj (r0 i) * sat))) ∧
          out.sel "green" = some (fun i => _sRGB (_clip (s + _sAdj (g0 i) * sat))) ∧
          out.sel "blue" = some (fun i => _sRGB (_clip (s + _sAdj (b0 i) * sat)))) := by
    intro s hout
    subst hout
    refine ⟨rfl, s, rfl, fun hlab => ?_⟩
    simp only [EnhancedImage.sel, hlab]
    refine ⟨rfl, ?_, ?_⟩ <;> simp [selBands]
  cases a with
  | none =>
    simp only [SatValue.values, SatValue.scalar, Except.ok.injEq] at hok
    exact main _ hok.symm
  | some v =>
    cases v with
    | dataArray x =>
      simp only [SatValue.values, SatValue.scalar, Except.ok.injEq] at hok
      exact main _ hok.symm
    | pyFloat x => simp [SatValue.values] at hok

/-- Witness for the amended C3 at a concrete (red, green, blue)-ordered
image. -/
theorem enhanceImage_label_selection_witness :
    wout1.bandLabels = wimg1.bandLabels ∧
    ∃ s : ℝ,
      wout1.data = [fun _ : Fin 1 => _sRGB (_clip (s + _sAdj 0 * sat)),
                    fun _ => _sRGB (_clip (s + _sAdj 0 * sat)),
                    fun _ => _sRGB (_clip (s + _sAdj 0 * sat))] ∧
      (wimg1.bandLabels = ["red", "green", "blue"] →
        wout1.sel "red" = some (fun _ => _sRGB (_clip (s + _sAdj 0 * sat))) ∧
        wout1.sel "green" = some (fun _ => _sRGB (_clip (s + _sAdj 0 * sat))) ∧
        wout1.sel "blue" = some (fun _ => _sRGB (_clip (s + _sAdj 0 * sat)))) :=
  enhanceImage_label_selection wimg1 (some (SatValue.dataArray 0)) wout1
    (fun _ => 0) (fun _ => 0) (fun _ => 0) rfl rfl rfl rfl

end TrueColor
